import Mathlib

/-!
# Verification of the heritage-reservations availability/booking engine

Shallow embedding of the core of `src/app.py`:

* `Reservation.overlaps` — the half-open interval overlap predicate
  (`app.py` lines 70-71);
* `is_available` — the day-by-day availability scan (lines 93-105);
* `book_room` — the direct booking POST path (lines 123-147);
* `ota_webhook` — the idempotent OTA-webhook ingestion path (lines 220-243);
* `admin_reconcile` — the reconciliation scan over room types (lines 246-261);
* `pushSnapshot` — the 30-day per-day availability snapshot
  (lines 150-180 availability markers and lines 307-318).

Calendar dates are modelled as integers (serial day numbers, e.g. the number
of days since the Unix epoch): Python `date` values are totally ordered and
`timedelta(days=1)` is `+ 1` on serials, which is all the source uses.
SQLAlchemy relationship collections (`room_type.reservations`) are made
explicit: the store is a list of reservation rows plus a list of room types,
and `reservationsOf` performs the query-by-room-type.  Autoincrementing
primary keys are modelled by a `nextId` counter.  Unparseable date strings
are modelled as `none` (the `parse_date` try/except).
-/

namespace Heritage

/-- A reservation row (`Reservation` model, `app.py` lines 59-68). -/
structure Reservation where
  id : Nat
  roomTypeId : Nat
  source : String
  externalId : Option String
  guestName : String
  guestEmail : String
  checkIn : Int
  checkOut : Int
deriving Repr, DecidableEq

/-- `Reservation.overlaps` (`app.py` lines 70-71):
`not (self.check_out <= start or self.check_in >= end)`. -/
def Reservation.overlaps (r : Reservation) (start stop : Int) : Bool :=
  !(decide (r.checkOut ≤ start) || decide (r.checkIn ≥ stop))

/-- A room type row (`RoomType` model, `app.py` lines 50-57); only the fields
the engine reads.  `quantity` is a Python int. -/
structure RoomType where
  id : Nat
  quantity : Int
deriving Repr, DecidableEq

/-- The inventory store: the reservation table (in insertion / primary-key
order), the room-type table, and the autoincrement counter. -/
structure Store where
  nextId : Nat
  reservations : List Reservation
  roomTypes : List RoomType
deriving Repr, DecidableEq

/-- The SQLAlchemy relationship `room_type.reservations`: all reservation rows
whose `room_type_id` is the given id, in table order. -/
def reservationsOf (s : Store) (rtId : Nat) : List Reservation :=
  s.reservations.filter (fun r => r.roomTypeId == rtId)

/-- `RoomType.query.get(id)`: the room-type row with the given primary key. -/
def findRoomType (s : Store) (rtId : Nat) : Option RoomType :=
  s.roomTypes.find? (fun rt => rt.id == rtId)

/-- The inner counting loop of `is_available` (`app.py` lines 98-101):
the number of reservations in `rs` overlapping `[d, d+1)`. -/
def occupancy (rs : List Reservation) (d : Int) : Nat :=
  (rs.filter (fun r => r.overlaps d (d + 1))).length

/-- The `while d < end_date` loop of `is_available` (`app.py` lines 95-104),
with the iteration count made explicit as fuel: starting at day `d` with
`fuel` days left, return `(False, some d)` at the first day whose occupancy
reaches `quantity`, else `(True, none)`. -/
def availLoop (rs : List Reservation) (quantity : Int) (d : Int) :
    Nat → Bool × Option Int
  | 0 => (true, none)
  | fuel + 1 =>
    if quantity ≤ (occupancy rs d : Int) then (false, some d)
    else availLoop rs quantity (d + 1) fuel

/-- `is_available(room_type, start_date, end_date)` (`app.py` lines 93-105),
with the relationship collection `room_type.reservations` and
`room_type.quantity` passed explicitly. -/
def is_available (rs : List Reservation) (quantity : Int)
    (start_date end_date : Int) : Bool × Option Int :=
  availLoop rs quantity start_date (end_date - start_date).toNat

/-- Outcome of the direct booking POST path (`app.py` lines 123-147). -/
inductive BookResult where
  | notFound
  | invalidDates
  | invalidRange
  | conflict (blocked : Option Int)
  | confirmed (resId : Nat)
deriving Repr, DecidableEq

/-- `db.session.add(res); db.session.commit()`: append the new row to the
reservation table and advance the autoincrement counter. -/
def insertRow (s : Store) (row : Reservation) : Store :=
  { s with
      nextId := s.nextId + 1,
      reservations := s.reservations ++ [row] }

/-- The row built at `app.py` line 142 for a direct booking. -/
def directRow (s : Store) (rt : RoomType) (name email : String)
    (check_in check_out : Int) : Reservation :=
  { id := s.nextId, roomTypeId := rt.id, source := "direct",
    externalId := none, guestName := name, guestEmail := email,
    checkIn := check_in, checkOut := check_out }

/-- `book_room` (`app.py` lines 123-147): look up the room type
(`get_or_404`), parse the dates (a `none` argument is a parse failure),
validate `check_in < check_out`, run `is_available`, and on success insert a
new `direct` reservation row and commit. -/
def book_room (s : Store) (rtId : Nat) (name email : String)
    (checkInRaw checkOutRaw : Option Int) : Store × BookResult :=
  match findRoomType s rtId with
  | none => (s, .notFound)
  | some rt =>
    match checkInRaw, checkOutRaw with
    | some check_in, some check_out =>
      if check_out ≤ check_in then (s, .invalidRange)
      else
        let res := is_available (reservationsOf s rt.id) rt.quantity
          check_in check_out
        if res.1 then
          (insertRow s (directRow s rt name email check_in check_out),
           .confirmed s.nextId)
        else (s, .conflict res.2)
    | _, _ => (s, .invalidDates)

/-- A webhook payload after the required-fields check (`app.py` lines
222-225); `checkInRaw = none` models an unparseable `check_in` string. -/
structure WebhookPayload where
  ota : String
  externalId : String
  roomTypeId : Nat
  guestName : String
  guestEmail : String
  checkInRaw : Option Int
  checkOutRaw : Option Int
deriving Repr, DecidableEq

/-- Outcome of the webhook ingestion path (`app.py` lines 220-243). -/
inductive IngestResult where
  | duplicate (resId : Nat)
  | invalidRoomType
  | invalidDates
  | rejected (blocked : Option Int)
  | accepted (resId : Nat)
deriving Repr, DecidableEq

/-- Does a reservation row match the idempotency key of a payload
(`Reservation.query.filter_by(source=data['ota'],
external_id=data['external_id'])`, `app.py` line 226)? -/
def matchesKey (p : WebhookPayload) (r : Reservation) : Bool :=
  r.source == p.ota && r.externalId == some p.externalId

/-- The number of reservation rows matching a payload's
`(source, externalId)` idempotency key. -/
def keyCount (s : Store) (p : WebhookPayload) : Nat :=
  (s.reservations.filter (matchesKey p)).length

/-- The row built at `app.py` line 240 for an accepted webhook booking. -/
def webhookRow (s : Store) (rt : RoomType) (p : WebhookPayload)
    (check_in check_out : Int) : Reservation :=
  { id := s.nextId, roomTypeId := rt.id, source := p.ota,
    externalId := some p.externalId, guestName := p.guestName,
    guestEmail := p.guestEmail, checkIn := check_in, checkOut := check_out }

/-- `ota_webhook` (`app.py` lines 220-243): idempotency lookup first, then
room-type lookup, then date parsing, then `is_available`, then insert and
commit.  Note the source performs no `check_in < check_out` validation on
this path. -/
def ota_webhook (s : Store) (p : WebhookPayload) : Store × IngestResult :=
  match s.reservations.find? (matchesKey p) with
  | some existing => (s, .duplicate existing.id)
  | none =>
    match findRoomType s p.roomTypeId with
    | none => (s, .invalidRoomType)
    | some rt =>
      match p.checkInRaw, p.checkOutRaw with
      | some check_in, some check_out =>
        let res := is_available (reservationsOf s rt.id) rt.quantity
          check_in check_out
        if res.1 then
          (insertRow s (webhookRow s rt p check_in check_out),
           .accepted s.nextId)
        else (s, .rejected res.2)
      | _, _ => (s, .invalidDates)

/-- One 30-day snapshot entry: `(date, available)` with
`available = max(0, quantity - count)` (`app.py` lines 164-179, 311-317). -/
def snapshotDay (rs : List Reservation) (quantity : Int) (d : Int) :
    Int × Int :=
  (d, max 0 (quantity - (occupancy rs d : Int)))

/-- The `for i in range(0, 30)` snapshot loop of `ota_push_availability`
(`app.py` lines 311-317), identical to the availability markers of
`api_calendar_events` (lines 164-179). -/
def pushSnapshot (rs : List Reservation) (quantity : Int) (today : Int) :
    List (Int × Int) :=
  (List.range 30).map (fun i => snapshotDay rs quantity (today + (i : Int)))

/-- A Python dict with insertion-ordered keys, as an association list:
`date_map.setdefault(d, []).append(r)` (`app.py` line 256) appends `r` to the
entry at key `d`, creating the entry at the end when the key is new. -/
def dmAdd (m : List (Int × List Reservation)) (d : Int) (r : Reservation) :
    List (Int × List Reservation) :=
  match m with
  | [] => [(d, [r])]
  | (k, l) :: rest =>
    if k == d then (k, l ++ [r]) :: rest else (k, l) :: dmAdd rest d r

/-- The `while d < r.check_out` loop of the scan (`app.py` lines 254-257):
add `r` at the `n` consecutive days starting at `d`. -/
def dmAddDays (r : Reservation) :
    List (Int × List Reservation) → Int → Nat → List (Int × List Reservation)
  | m, _, 0 => m
  | m, d, n + 1 => dmAddDays r (dmAdd m d r) (d + 1) n

/-- Add one reservation to the date map at every day of
`[check_in, check_out)`. -/
def dmAddRes (m : List (Int × List Reservation)) (r : Reservation) :
    List (Int × List Reservation) :=
  dmAddDays r m r.checkIn (r.checkOut - r.checkIn).toNat

/-- The `date_map` built for one room type (`app.py` lines 252-257). -/
def dateMap (rs : List Reservation) : List (Int × List Reservation) :=
  rs.foldl dmAddRes []

/-- One conflict entry (`app.py` line 260). -/
structure Conflict where
  roomTypeId : Nat
  date : Int
  count : Nat
  reservations : List Reservation
deriving Repr, DecidableEq

/-- The conflicts contributed by one room type (`app.py` lines 258-260):
every date-map entry whose list is longer than `quantity`. -/
def rtConflicts (rt : RoomType) (rs : List Reservation) : List Conflict :=
  (dateMap rs).filterMap (fun e =>
    if rt.quantity < (e.2.length : Int) then
      some ⟨rt.id, e.1, e.2.length, e.2⟩
    else none)

/-- `admin_reconcile` (`app.py` lines 246-261): accumulate the conflicts of
every room type, in table order. -/
def admin_reconcile (s : Store) : List Conflict :=
  s.roomTypes.foldl
    (fun acc rt => acc ++ rtConflicts rt (reservationsOf s rt.id)) []

/-- Does the span `[checkIn, checkOut)` of a reservation cover day `d`?
This is how the reconciliation loop enumerates days (`app.py` lines
254-257). -/
def coversDay (r : Reservation) (d : Int) : Bool :=
  decide (r.checkIn ≤ d) && decide (d < r.checkOut)

/-- The reservations of `rs` covering day `d`, in table order. -/
def coveringOf (rs : List Reservation) (d : Int) : List Reservation :=
  rs.filter (fun r => coversDay r d)

/-- Lookup in the date map: the list stored at key `d`, or `[]` when the key
is absent. -/
def dmGet (m : List (Int × List Reservation)) (d : Int) : List Reservation :=
  match m.find? (fun e => e.1 == d) with
  | some e => e.2
  | none => []

/-! ### Concrete calendar dates

Serial day numbers (days since 1970-01-01) for the dates named in the spec:
2024-01-01 is day 19723, January 2024 has 31 days and February 2024 has 29. -/

/-- 2024-01-10 as a serial day number. -/
def d20240110 : Int := 19732

/-- 2024-01-11 as a serial day number. -/
def d20240111 : Int := 19733

/-- 2024-01-12 as a serial day number. -/
def d20240112 : Int := 19734

/-- 2024-01-13 as a serial day number. -/
def d20240113 : Int := 19735

/-- 2024-01-14 as a serial day number. -/
def d20240114 : Int := 19736

/-- 2024-03-01 as a serial day number. -/
def d20240301 : Int := 19783

/-- 2024-01-09 as a serial day number. -/
def d20240109 : Int := 19731

/-- A committed reservation on room type 1 spanning
`[2024-01-10, 2024-01-12)`. -/
def exRes1 : Reservation :=
  ⟨1, 1, "direct", none, "Asha", "asha@example.com", d20240110, d20240112⟩

/-- A second committed reservation on room type 1 with the identical span
`[2024-01-10, 2024-01-12)`. -/
def exRes2 : Reservation :=
  ⟨2, 1, "direct", none, "Bela", "bela@example.com", d20240110, d20240112⟩

/-- A store holding room type 1 with `quantity = 2` and the two committed
reservations above. -/
def exStore : Store := ⟨3, [exRes1, exRes2], [⟨1, 2⟩]⟩

/-- An empty store with one room type of `quantity = 1`. -/
def emptyStore1 : Store := ⟨1, [], [⟨1, 1⟩]⟩

/-- 2024-03-02 as a serial day number. -/
def d20240302 : Int := 19784

/-- First of three reservations covering 2024-03-01 on room type 1. -/
def marRes1 : Reservation :=
  ⟨1, 1, "direct", none, "Asha", "asha@example.com", d20240301, d20240302⟩

/-- Second of three reservations covering 2024-03-01 on room type 1. -/
def marRes2 : Reservation :=
  ⟨2, 1, "booking.com", some ("B1"), "Bela", "bela@example.com", d20240301,
    d20240302⟩

/-- Third of three reservations covering 2024-03-01 on room type 1. -/
def marRes3 : Reservation :=
  ⟨3, 1, "makemytrip", some ("M1"), "Cato", "cato@example.com", d20240301,
    d20240302⟩

/-- An overbooked store: room type 1 has `quantity = 2` but three committed
reservations all covering 2024-03-01. -/
def marStore : Store := ⟨4, [marRes1, marRes2, marRes3], [⟨1, 2⟩]⟩

/-- The capacity invariant: for every room type and every calendar day, the
number of committed reservations covering that day is at most `quantity`. -/
def capacityOK (s : Store) : Prop :=
  ∀ rt ∈ s.roomTypes, ∀ d : Int,
    (occupancy (reservationsOf s rt.id) d : Int) ≤ rt.quantity

/-- One sequentially executed commit attempt: a direct booking POST or a
webhook delivery. -/
inductive Commit where
  | direct (rtId : Nat) (name email : String) (ci co : Option Int)
  | webhook (p : WebhookPayload)

/-- The store resulting from one commit attempt (successful or not). -/
def applyCommit (s : Store) (c : Commit) : Store :=
  match c with
  | .direct rtId name email ci co => (book_room s rtId name email ci co).1
  | .webhook p => (ota_webhook s p).1

/-- The store after a sequence of sequentially executed commit attempts. -/
def applyCommits (s : Store) (cs : List Commit) : Store :=
  cs.foldl applyCommit s

/-- `d` is the earliest day of `[start, stop)` whose occupancy in `rs` has
reached `quantity`. -/
def firstBlockedDay (rs : List Reservation) (quantity start stop d : Int) :
    Prop :=
  start ≤ d ∧ d < stop ∧ quantity ≤ (occupancy rs d : Int) ∧
    ∀ y : Int, start ≤ y → y < d → (occupancy rs y : Int) < quantity

/-! ### Basic lemmas about overlap and occupancy -/

theorem overlaps_day (r : Reservation) (d : Int) :
    r.overlaps d (d + 1) = true ↔ r.checkIn ≤ d ∧ d < r.checkOut := by
  simp only [Reservation.overlaps, Bool.not_eq_true', Bool.or_eq_false_iff,
    decide_eq_false_iff_not, not_le]
  omega

theorem occupancy_append (rs : List Reservation) (r : Reservation) (d : Int) :
    occupancy (rs ++ [r]) d =
      occupancy rs d + (if r.overlaps d (d + 1) then 1 else 0) := by
  simp only [occupancy, List.filter_append, List.length_append]
  congr 1
  by_cases h : r.overlaps d (d + 1) <;> simp [h]

/-! ### Characterization of the availability scan -/

theorem availLoop_shape (rs : List Reservation) (q : Int) :
    ∀ (fuel : Nat) (d : Int), availLoop rs q d fuel = (true, none) ∨
      ∃ x : Int, availLoop rs q d fuel = (false, some x) := by
  intro fuel
  induction fuel with
  | zero => intro d; left; rfl
  | succ n ih =>
    intro d
    rw [availLoop]
    split
    · exact Or.inr ⟨d, rfl⟩
    · exact ih (d + 1)

theorem availLoop_true (rs : List Reservation) (q : Int) :
    ∀ (fuel : Nat) (d : Int), availLoop rs q d fuel = (true, none) →
      ∀ x : Int, d ≤ x → x < d + (fuel : Int) →
        (occupancy rs x : Int) < q := by
  intro fuel
  induction fuel with
  | zero => intro d _ x hdx hx; push_cast at hx; omega
  | succ n ih =>
    intro d h x hdx hx
    rw [availLoop] at h
    split at h
    · exact absurd h (by simp)
    · next hq =>
      rcases eq_or_lt_of_le hdx with rfl | hlt
      · omega
      · exact ih (d + 1) h x (by omega) (by push_cast at hx ⊢; omega)

theorem availLoop_false (rs : List Reservation) (q : Int) :
    ∀ (fuel : Nat) (d : Int) (b : Option Int),
      availLoop rs q d fuel = (false, b) →
      ∃ x : Int, b = some x ∧ d ≤ x ∧ x < d + (fuel : Int) ∧
        q ≤ (occupancy rs x : Int) ∧
        ∀ y : Int, d ≤ y → y < x → (occupancy rs y : Int) < q := by
  intro fuel
  induction fuel with
  | zero => intro d b h; exact absurd h (by rw [availLoop]; simp)
  | succ n ih =>
    intro d b h
    rw [availLoop] at h
    split at h
    · next hq =>
      have hb : b = some d := by
        have := congrArg Prod.snd h
        simpa using this.symm
      exact ⟨d, hb, le_refl d, by push_cast; omega, hq,
        fun y h1 h2 => by omega⟩
    · next hq =>
      obtain ⟨x, rfl, h1, h2, h3, h4⟩ := ih (d + 1) b h
      refine ⟨x, rfl, by omega, by push_cast at h2 ⊢; omega, h3, ?_⟩
      intro y hy1 hy2
      rcases eq_or_lt_of_le hy1 with rfl | hlt
      · omega
      · exact h4 y (by omega) hy2

theorem is_available_fst_true (rs : List Reservation) (q a b : Int)
    (h : (is_available rs q a b).1 = true) :
    ∀ d : Int, a ≤ d → d < b → (occupancy rs d : Int) < q := by
  intro d h1 h2
  rcases availLoop_shape rs q (b - a).toNat a with hs | ⟨x, hs⟩
  · exact availLoop_true rs q (b - a).toNat a hs d h1 (by
      have : (0:Int) ≤ b - a := by omega
      rw [Int.toNat_of_nonneg this]; omega)
  · rw [is_available, hs] at h
    simp at h

theorem is_available_fst_false (rs : List Reservation) (q a b : Int)
    (h : (is_available rs q a b).1 = false) :
    ∃ d : Int, (is_available rs q a b).2 = some d ∧
      firstBlockedDay rs q a b d := by
  rcases availLoop_shape rs q (b - a).toNat a with hs | ⟨x, hs⟩
  · rw [is_available, hs] at h; simp at h
  · obtain ⟨y, hy, h1, h2, h3, h4⟩ :=
      availLoop_false rs q (b - a).toNat a _ hs
    obtain rfl : y = x := by injection hy with hy; omega
    refine ⟨y, by rw [is_available, hs], h1, ?_, h3, h4⟩
    by_cases hab : a ≤ b
    · rw [Int.toNat_of_nonneg (by omega : (0:Int) ≤ b - a)] at h2; omega
    · have : (b - a).toNat = 0 := by
        apply Int.toNat_of_nonpos; omega
      rw [this] at h2; push_cast at h2; omega

theorem is_available_of_first (rs : List Reservation) (q a b d : Int)
    (h : firstBlockedDay rs q a b d) :
    is_available rs q a b = (false, some d) := by
  obtain ⟨h1, h2, h3, h4⟩ := h
  rcases availLoop_shape rs q (b - a).toNat a with hs | ⟨x, hs⟩
  · exfalso
    have := availLoop_true rs q (b - a).toNat a hs d h1 (by
      rw [Int.toNat_of_nonneg (by omega : (0:Int) ≤ b - a)]; omega)
    omega
  · obtain ⟨y, hy, g1, g2, g3, g4⟩ :=
      availLoop_false rs q (b - a).toNat a _ hs
    obtain rfl : y = x := by injection hy with hy; omega
    rw [Int.toNat_of_nonneg (by omega : (0:Int) ≤ b - a)] at g2
    have hxd : y = d := by
      rcases lt_trichotomy y d with hlt | heq | hgt
      · have := h4 y g1 hlt; omega
      · exact heq
      · have := g4 d h1 hgt; omega
    rw [is_available, hs, hxd]

/-! ### Case analyses of the two commit paths -/

theorem book_room_cases (s : Store) (rtId : Nat) (n e : String)
    (ci co : Option Int) :
    ((book_room s rtId n e ci co).1 = s ∧
      ∀ k, (book_room s rtId n e ci co).2 ≠ .confirmed k) ∨
    (∃ rt check_in check_out, findRoomType s rtId = some rt ∧
      ci = some check_in ∧ co = some check_out ∧ check_in < check_out ∧
      (is_available (reservationsOf s rt.id) rt.quantity check_in
        check_out).1 = true ∧
      book_room s rtId n e ci co =
        (insertRow s (directRow s rt n e check_in check_out),
         .confirmed s.nextId)) := by
  rcases hrt : findRoomType s rtId with _ | rt
  · exact Or.inl (by simp [book_room, hrt])
  rcases ci with _ | check_in
  · exact Or.inl (by simp [book_room, hrt])
  rcases co with _ | check_out
  · exact Or.inl (by simp [book_room, hrt])
  by_cases hle : check_out ≤ check_in
  · exact Or.inl (by simp [book_room, hrt, hle])
  by_cases hav : (is_available (reservationsOf s rt.id) rt.quantity check_in
      check_out).1 = true
  · refine Or.inr ⟨rt, check_in, check_out, rfl, rfl, rfl, by omega, hav, ?_⟩
    simp [book_room, hrt, hle, hav]
  · exact Or.inl (by simp [book_room, hrt, hle, hav])

theorem book_room_conflict (s : Store) (rtId : Nat) (n e : String)
    (ci co : Option Int) (blocked : Option Int)
    (h : (book_room s rtId n e ci co).2 = .conflict blocked) :
    ∃ rt check_in check_out d, findRoomType s rtId = some rt ∧
      ci = some check_in ∧ co = some check_out ∧ blocked = some d ∧
      firstBlockedDay (reservationsOf s rt.id) rt.quantity check_in
        check_out d := by
  rcases hrt : findRoomType s rtId with _ | rt
  · simp [book_room, hrt] at h
  rcases ci with _ | check_in
  · simp [book_room, hrt] at h
  rcases co with _ | check_out
  · simp [book_room, hrt] at h
  by_cases hle : check_out ≤ check_in
  · simp [book_room, hrt, hle] at h
  by_cases hav : (is_available (reservationsOf s rt.id) rt.quantity check_in
      check_out).1 = true
  · simp [book_room, hrt, hle, hav] at h
  · have hfalse : (is_available (reservationsOf s rt.id) rt.quantity check_in
        check_out).1 = false := Bool.eq_false_iff.mpr hav
    obtain ⟨d, hd, hfb⟩ := is_available_fst_false (reservationsOf s rt.id)
      rt.quantity check_in check_out hfalse
    simp [book_room, hrt, hle, hav] at h
    exact ⟨rt, check_in, check_out, d, rfl, rfl, rfl, by rw [← h, hd], hfb⟩

theorem ota_webhook_cases (s : Store) (p : WebhookPayload) :
    ((ota_webhook s p).1 = s ∧ ∀ k, (ota_webhook s p).2 ≠ .accepted k) ∨
    (∃ rt check_in check_out,
      s.reservations.find? (matchesKey p) = none ∧
      findRoomType s p.roomTypeId = some rt ∧
      p.checkInRaw = some check_in ∧ p.checkOutRaw = some check_out ∧
      (is_available (reservationsOf s rt.id) rt.quantity check_in
        check_out).1 = true ∧
      ota_webhook s p =
        (insertRow s (webhookRow s rt p check_in check_out),
         .accepted s.nextId)) := by
  rcases hdup : s.reservations.find? (matchesKey p) with _ | existing
  case some => exact Or.inl (by simp [ota_webhook, hdup])
  rcases hrt : findRoomType s p.roomTypeId with _ | rt
  · exact Or.inl (by simp [ota_webhook, hdup, hrt])
  rcases hci : p.checkInRaw with _ | check_in
  · exact Or.inl (by simp [ota_webhook, hdup, hrt, hci])
  rcases hco : p.checkOutRaw with _ | check_out
  · exact Or.inl (by simp [ota_webhook, hdup, hrt, hci, hco])
  by_cases hav : (is_available (reservationsOf s rt.id) rt.quantity check_in
      check_out).1 = true
  · refine Or.inr ⟨rt, check_in, check_out, rfl, rfl, rfl, rfl, hav, ?_⟩
    simp [ota_webhook, hdup, hrt, hci, hco, hav]
  · exact Or.inl (by simp [ota_webhook, hdup, hrt, hci, hco, hav])

theorem ota_webhook_rejected (s : Store) (p : WebhookPayload)
    (blocked : Option Int)
    (h : (ota_webhook s p).2 = .rejected blocked) :
    ∃ rt check_in check_out d, findRoomType s p.roomTypeId = some rt ∧
      p.checkInRaw = some check_in ∧ p.checkOutRaw = some check_out ∧
      blocked = some d ∧
      firstBlockedDay (reservationsOf s rt.id) rt.quantity check_in
        check_out d := by
  rcases hdup : s.reservations.find? (matchesKey p) with _ | existing
  case some => simp [ota_webhook, hdup] at h
  rcases hrt : findRoomType s p.roomTypeId with _ | rt
  · simp [ota_webhook, hdup, hrt] at h
  rcases hci : p.checkInRaw with _ | check_in
  · simp [ota_webhook, hdup, hrt, hci] at h
  rcases hco : p.checkOutRaw with _ | check_out
  · simp [ota_webhook, hdup, hrt, hci, hco] at h
  by_cases hav : (is_available (reservationsOf s rt.id) rt.quantity check_in
      check_out).1 = true
  · simp [ota_webhook, hdup, hrt, hci, hco, hav] at h
  · have hfalse : (is_available (reservationsOf s rt.id) rt.quantity check_in
        check_out).1 = false := Bool.eq_false_iff.mpr hav
    obtain ⟨d, hd, hfb⟩ := is_available_fst_false (reservationsOf s rt.id)
      rt.quantity check_in check_out hfalse
    simp [ota_webhook, hdup, hrt, hci, hco, hav] at h
    exact ⟨rt, check_in, check_out, d, rfl, rfl, rfl, by rw [← h, hd], hfb⟩

/-! ### The capacity invariant and its preservation -/

theorem reservationsOf_insertRow (s : Store) (row : Reservation)
    (rtId : Nat) :
    reservationsOf (insertRow s row) rtId =
      reservationsOf s rtId ++
        (if row.roomTypeId == rtId then [row] else []) := by
  simp only [reservationsOf, insertRow, List.filter_append]
  congr 1
  by_cases h : row.roomTypeId == rtId <;> simp [List.filter, h]

theorem roomTypes_insertRow (s : Store) (row : Reservation) :
    (insertRow s row).roomTypes = s.roomTypes := rfl

theorem capacityOK_insertRow (s : Store) (rt : RoomType) (row : Reservation)
    (hnd : (s.roomTypes.map RoomType.id).Nodup)
    (hmem : rt ∈ s.roomTypes) (hid : row.roomTypeId = rt.id)
    (havail : ∀ d : Int, row.checkIn ≤ d → d < row.checkOut →
      (occupancy (reservationsOf s rt.id) d : Int) < rt.quantity)
    (hOK : capacityOK s) : capacityOK (insertRow s row) := by
  intro rt2 hrt2 d
  have hrt2s : rt2 ∈ s.roomTypes := hrt2
  rw [reservationsOf_insertRow]
  by_cases hid2 : row.roomTypeId == rt2.id
  · have hbeq : row.roomTypeId = rt2.id := by simpa using hid2
    have hids : rt.id = rt2.id := by omega
    have hrteq : rt2 = rt :=
      List.inj_on_of_nodup_map hnd hrt2s hmem hids.symm
    subst hrteq
    rw [if_pos hid2, occupancy_append]
    by_cases hov : row.overlaps d (d + 1) = true
    · obtain ⟨hcov1, hcov2⟩ := (overlaps_day row d).mp hov
      have := havail d hcov1 hcov2
      rw [if_pos hov]
      push_cast
      omega
    · rw [if_neg hov]
      simpa using hOK rt2 hrt2s d
  · rw [if_neg hid2, List.append_nil]
    exact hOK rt2 hrt2s d

theorem roomTypes_applyCommit (s : Store) (c : Commit) :
    (applyCommit s c).roomTypes = s.roomTypes := by
  cases c with
  | direct rtId n e ci co =>
    rcases book_room_cases s rtId n e ci co with ⟨heq, _⟩ |
      ⟨rt, a, b, _, _, _, _, _, heq⟩
    · show (book_room s rtId n e ci co).1.roomTypes = s.roomTypes
      rw [heq]
    · show (book_room s rtId n e ci co).1.roomTypes = s.roomTypes
      rw [heq]
      rfl
  | webhook p =>
    rcases ota_webhook_cases s p with ⟨heq, _⟩ |
      ⟨rt, a, b, _, _, _, _, _, heq⟩
    · show (ota_webhook s p).1.roomTypes = s.roomTypes
      rw [heq]
    · show (ota_webhook s p).1.roomTypes = s.roomTypes
      rw [heq]
      rfl

theorem capacityOK_applyCommit (s : Store) (c : Commit)
    (hnd : (s.roomTypes.map RoomType.id).Nodup)
    (hOK : capacityOK s) : capacityOK (applyCommit s c) := by
  cases c with
  | direct rtId n e ci co =>
    rcases book_room_cases s rtId n e ci co with ⟨heq, _⟩ |
      ⟨rt, a, b, hrt, _, _, _, hav, heq⟩
    · show capacityOK (book_room s rtId n e ci co).1
      rw [heq]; exact hOK
    · show capacityOK (book_room s rtId n e ci co).1
      rw [heq]
      exact capacityOK_insertRow s rt _ hnd
        (List.mem_of_find?_eq_some hrt) rfl
        (fun d h1 h2 => is_available_fst_true _ _ a b hav d h1 h2) hOK
  | webhook p =>
    rcases ota_webhook_cases s p with ⟨heq, _⟩ |
      ⟨rt, a, b, _, hrt, _, _, hav, heq⟩
    · show capacityOK (ota_webhook s p).1
      rw [heq]; exact hOK
    · show capacityOK (ota_webhook s p).1
      rw [heq]
      exact capacityOK_insertRow s rt _ hnd
        (List.mem_of_find?_eq_some hrt) rfl
        (fun d h1 h2 => is_available_fst_true _ _ a b hav d h1 h2) hOK

theorem is_available_of_none (rs : List Reservation) (q a b : Int)
    (h : ∀ d : Int, a ≤ d → d < b → (occupancy rs d : Int) < q) :
    is_available rs q a b = (true, none) := by
  rcases availLoop_shape rs q (b - a).toNat a with hs | ⟨x, hs⟩
  · rw [is_available, hs]
  · exfalso
    obtain ⟨y, hy, g1, g2, g3, g4⟩ :=
      availLoop_false rs q (b - a).toNat a _ hs
    have hyb : y < b := by
      by_cases hab : a ≤ b
      · rw [Int.toNat_of_nonneg (by omega : (0:Int) ≤ b - a)] at g2; omega
      · have hz : (b - a).toNat = 0 := by apply Int.toNat_of_nonpos; omega
        rw [hz] at g2; push_cast at g2; omega
    have := h y g1 hyb
    omega

/-! ### Lemmas about the reconciliation date map -/

theorem dmGet_cons (k : Int) (l : List Reservation)
    (rest : List (Int × List Reservation)) (d : Int) :
    dmGet ((k, l) :: rest) d = if k = d then l else dmGet rest d := by
  by_cases h : k = d <;> simp [dmGet, List.find?_cons, h]

theorem dmGet_dmAdd (m : List (Int × List Reservation)) (k : Int)
    (r : Reservation) (d : Int) :
    dmGet (dmAdd m k r) d =
      if k = d then dmGet m d ++ [r] else dmGet m d := by
  induction m with
  | nil =>
    by_cases h : k = d <;>
      simp [dmAdd, dmGet, List.find?_cons, h]
  | cons e rest ih =>
    obtain ⟨k2, l⟩ := e
    by_cases h2 : k2 = k
    · subst h2
      rw [show dmAdd ((k2, l) :: rest) k2 r = (k2, l ++ [r]) :: rest by
        simp [dmAdd]]
      by_cases h : k2 = d
      · subst h
        rw [dmGet_cons, dmGet_cons]
        simp
      · rw [dmGet_cons, dmGet_cons, if_neg h, if_neg h, if_neg h]
    · rw [show dmAdd ((k2, l) :: rest) k r = (k2, l) :: dmAdd rest k r by
        simp [dmAdd, h2]]
      rw [dmGet_cons, dmGet_cons]
      by_cases h : k2 = d
      · have hkd : ¬k = d := fun hc => h2 (by omega)
        rw [if_pos h, if_pos h, if_neg hkd]
      · rw [if_neg h, if_neg h, ih]

theorem keys_dmAdd (m : List (Int × List Reservation)) (k : Int)
    (r : Reservation) :
    (dmAdd m k r).map Prod.fst =
      if k ∈ m.map Prod.fst then m.map Prod.fst
      else m.map Prod.fst ++ [k] := by
  induction m with
  | nil => simp [dmAdd]
  | cons e rest ih =>
    obtain ⟨k2, l⟩ := e
    by_cases h2 : k2 = k
    · subst h2
      rw [show dmAdd ((k2, l) :: rest) k2 r = (k2, l ++ [r]) :: rest by
        simp [dmAdd]]
      simp
    · rw [show dmAdd ((k2, l) :: rest) k r = (k2, l) :: dmAdd rest k r by
        simp [dmAdd, h2]]
      simp only [List.map_cons, ih]
      have hne : ¬k = k2 := fun hc => h2 hc.symm
      by_cases hm : k ∈ rest.map Prod.fst
      · simp [hm, hne]
      · simp [hm, hne]

theorem nodup_keys_dmAdd (m : List (Int × List Reservation)) (k : Int)
    (r : Reservation) (h : (m.map Prod.fst).Nodup) :
    ((dmAdd m k r).map Prod.fst).Nodup := by
  rw [keys_dmAdd]
  by_cases hm : k ∈ m.map Prod.fst
  · rwa [if_pos hm]
  · rw [if_neg hm]
    simp [List.nodup_append, h, hm]

theorem dmGet_dmAddDays (r : Reservation) :
    ∀ (n : Nat) (m : List (Int × List Reservation)) (a d : Int),
    dmGet (dmAddDays r m a n) d =
      dmGet m d ++ (if a ≤ d ∧ d < a + (n : Int) then [r] else []) := by
  intro n
  induction n with
  | zero =>
    intro m a d
    have hc : ¬(a ≤ d ∧ d < a + ((0 : Nat) : Int)) := by push_cast; omega
    simp [dmAddDays, hc]
  | succ nn ih =>
    intro m a d
    rw [show dmAddDays r m a (nn + 1) = dmAddDays r (dmAdd m a r) (a + 1) nn
      from rfl, ih, dmGet_dmAdd]
    by_cases h : a = d
    · subst h
      have h1 : ¬(a + 1 ≤ a ∧ a < a + 1 + (nn : Int)) := by omega
      have h2 : a ≤ a ∧ a < a + ((nn + 1 : Nat) : Int) := by push_cast; omega
      simp [h1, h2]
    · rw [if_neg h]
      have heq : (a + 1 ≤ d ∧ d < a + 1 + (nn : Int)) ↔
          (a ≤ d ∧ d < a + ((nn + 1 : Nat) : Int)) := by
        push_cast
        omega
      rw [if_congr heq rfl rfl]

theorem nodup_keys_dmAddDays (r : Reservation) :
    ∀ (n : Nat) (m : List (Int × List Reservation)) (a : Int),
    (m.map Prod.fst).Nodup → ((dmAddDays r m a n).map Prod.fst).Nodup := by
  intro n
  induction n with
  | zero => intro m a h; exact h
  | succ nn ih =>
    intro m a h
    exact ih (dmAdd m a r) (a + 1) (nodup_keys_dmAdd m a r h)

theorem dmGet_dmAddRes (m : List (Int × List Reservation))
    (r : Reservation) (d : Int) :
    dmGet (dmAddRes m r) d =
      dmGet m d ++ (if coversDay r d then [r] else []) := by
  rw [dmAddRes, dmGet_dmAddDays]
  congr 1
  have heq : (r.checkIn ≤ d ∧
      d < r.checkIn + ((r.checkOut - r.checkIn).toNat : Int)) ↔
      coversDay r d = true := by
    simp only [coversDay, Bool.and_eq_true, decide_eq_true_eq]
    omega
  exact if_congr heq rfl rfl

theorem nodup_keys_dateMap (rs : List Reservation) :
    ((dateMap rs).map Prod.fst).Nodup := by
  suffices h : ∀ (m : List (Int × List Reservation)), (m.map Prod.fst).Nodup →
      ((rs.foldl dmAddRes m).map Prod.fst).Nodup from
    h [] (by simp)
  induction rs with
  | nil => intro m h; exact h
  | cons r rest ih =>
    intro m h
    exact ih (dmAddRes m r) (nodup_keys_dmAddDays r _ m r.checkIn h)

theorem dmGet_dateMap (rs : List Reservation) (d : Int) :
    dmGet (dateMap rs) d = coveringOf rs d := by
  suffices h : ∀ (m : List (Int × List Reservation)),
      dmGet (rs.foldl dmAddRes m) d = dmGet m d ++ coveringOf rs d by
    have := h []
    simpa [dateMap, dmGet] using this
  induction rs with
  | nil => intro m; simp [coveringOf]
  | cons r rest ih =>
    intro m
    rw [List.foldl_cons, ih, dmGet_dmAddRes, List.append_assoc]
    congr 1
    by_cases hc : coversDay r d = true <;>
      simp [coveringOf, List.filter_cons, hc]

theorem conflicts_filter_of_not_mem (rid : Nat) (q : Int) (d : Int) :
    ∀ (m : List (Int × List Reservation)), d ∉ m.map Prod.fst →
    ((m.filterMap (fun e => if q < (e.2.length : Int) then
        some (⟨rid, e.1, e.2.length, e.2⟩ : Conflict) else none)).filter
      (fun c => c.date == d)) = [] := by
  intro m
  induction m with
  | nil => intro _; rfl
  | cons e rest ih =>
    intro hd
    simp only [List.map_cons, List.mem_cons] at hd
    push_neg at hd
    by_cases hq : q < (e.2.length : Int)
    · have hfe : (if q < (e.2.length : Int) then
          some (⟨rid, e.1, e.2.length, e.2⟩ : Conflict) else none) =
          some ⟨rid, e.1, e.2.length, e.2⟩ := if_pos hq
      have hfalse : ((⟨rid, e.1, e.2.length, e.2⟩ : Conflict).date == d)
          = false := by
        rw [beq_eq_false_iff_ne]
        exact fun hc => hd.1 hc.symm
      simp only [List.filterMap_cons, hfe, List.filter_cons, hfalse,
        Bool.false_eq_true, if_false]
      exact ih hd.2
    · have hfe : (if q < (e.2.length : Int) then
          some (⟨rid, e.1, e.2.length, e.2⟩ : Conflict) else none) =
          none := if_neg hq
      simp only [List.filterMap_cons, hfe]
      exact ih hd.2

theorem conflicts_filter_eq (rid : Nat) (q : Int) (d : Int) (hq : 0 ≤ q) :
    ∀ (m : List (Int × List Reservation)), (m.map Prod.fst).Nodup →
    ((m.filterMap (fun e => if q < (e.2.length : Int) then
        some (⟨rid, e.1, e.2.length, e.2⟩ : Conflict) else none)).filter
      (fun c => c.date == d)) =
    (if q < ((dmGet m d).length : Int) then
      [⟨rid, d, (dmGet m d).length, dmGet m d⟩] else []) := by
  intro m
  induction m with
  | nil =>
    intro _
    have hc : ¬q < (((dmGet ([] : List (Int × List Reservation)) d).length :
        Nat) : Int) := by
      simp [dmGet]
      omega
    rw [if_neg hc]
    rfl
  | cons e rest ih =>
    intro hnd
    obtain ⟨k, l⟩ := e
    simp only [List.map_cons] at hnd
    obtain ⟨hni, hnr⟩ := List.nodup_cons.mp hnd
    rw [dmGet_cons]
    by_cases hed : k = d
    · subst hed
      rw [if_pos rfl]
      by_cases hq2 : q < (l.length : Int)
      · have hfe : (if q < (((k, l) : Int × List Reservation).2.length : Int)
            then some (⟨rid, ((k, l) : Int × List Reservation).1,
              ((k, l) : Int × List Reservation).2.length,
              ((k, l) : Int × List Reservation).2⟩ : Conflict)
            else none) = some ⟨rid, k, l.length, l⟩ := if_pos hq2
        have htrue : ((⟨rid, k, l.length, l⟩ : Conflict).date == k)
            = true := by simp
        simp only [List.filterMap_cons, hfe, List.filter_cons, htrue,
          if_true]
        rw [conflicts_filter_of_not_mem rid q k rest hni, if_pos hq2]
      · have hfe : (if q < (((k, l) : Int × List Reservation).2.length : Int)
            then some (⟨rid, ((k, l) : Int × List Reservation).1,
              ((k, l) : Int × List Reservation).2.length,
              ((k, l) : Int × List Reservation).2⟩ : Conflict)
            else none) = none := if_neg hq2
        simp only [List.filterMap_cons, hfe]
        rw [conflicts_filter_of_not_mem rid q k rest hni, if_neg hq2]
    · rw [if_neg hed]
      by_cases hq2 : q < (l.length : Int)
      · have hfe : (if q < (((k, l) : Int × List Reservation).2.length : Int)
            then some (⟨rid, ((k, l) : Int × List Reservation).1,
              ((k, l) : Int × List Reservation).2.length,
              ((k, l) : Int × List Reservation).2⟩ : Conflict)
            else none) = some ⟨rid, k, l.length, l⟩ := if_pos hq2
        have hfalse : ((⟨rid, k, l.length, l⟩ : Conflict).date == d)
            = false := by
          rw [beq_eq_false_iff_ne]
          exact fun hc => hed hc
        simp only [List.filterMap_cons, hfe, List.filter_cons, hfalse,
          Bool.false_eq_true, if_false]
        exact ih hnr
      · have hfe : (if q < (((k, l) : Int × List Reservation).2.length : Int)
            then some (⟨rid, ((k, l) : Int × List Reservation).1,
              ((k, l) : Int × List Reservation).2.length,
              ((k, l) : Int × List Reservation).2⟩ : Conflict)
            else none) = none := if_neg hq2
        simp only [List.filterMap_cons, hfe]
        exact ih hnr

theorem rtConflicts_filter (rt : RoomType) (rs : List Reservation) (d : Int)
    (hq : 0 ≤ rt.quantity) :
    (rtConflicts rt rs).filter (fun c => c.date == d) =
      if rt.quantity < ((coveringOf rs d).length : Int) then
        [⟨rt.id, d, (coveringOf rs d).length, coveringOf rs d⟩]
      else [] := by
  rw [rtConflicts,
    conflicts_filter_eq rt.id rt.quantity d hq (dateMap rs)
      (nodup_keys_dateMap rs),
    dmGet_dateMap]

theorem rtConflicts_roomTypeId (rt : RoomType) (rs : List Reservation) :
    ∀ c ∈ rtConflicts rt rs, c.roomTypeId = rt.id := by
  intro c hc
  simp only [rtConflicts, List.mem_filterMap] at hc
  obtain ⟨e, _, he⟩ := hc
  by_cases hq : rt.quantity < (e.2.length : Int)
  · rw [if_pos hq] at he
    injection he with he
    rw [← he]
  · rw [if_neg hq] at he
    cases he

theorem admin_reconcile_eq_join (s : Store) :
    admin_reconcile s =
      (s.roomTypes.map
        (fun rt => rtConflicts rt (reservationsOf s rt.id))).flatten := by
  rw [admin_reconcile]
  suffices h : ∀ (rts : List RoomType) (acc : List Conflict),
      rts.foldl (fun a rt => a ++ rtConflicts rt (reservationsOf s rt.id))
          acc =
        acc ++ (rts.map
          (fun rt => rtConflicts rt (reservationsOf s rt.id))).flatten by
    simpa using h s.roomTypes []
  intro rts
  induction rts with
  | nil => intro acc; simp
  | cons rt rest ih =>
    intro acc
    simp [ih, List.append_assoc]

/-! ### Claim theorems -/

/-- **C1**: starting from a store in which the capacity invariant holds (and
whose room-type ids are distinct, as primary keys are), after any sequence of
sequentially executed commit attempts — direct bookings via `book_room` and
webhook ingestions via `ota_webhook`, in particular any sequence of
successful commits — the number of committed reservations on a room type
covering any calendar day does not exceed its quantity. -/
theorem c1_capacity_invariant_preserved (s : Store) (cs : List Commit)
    (hnd : (s.roomTypes.map RoomType.id).Nodup)
    (hOK : capacityOK s) : capacityOK (applyCommits s cs) := by
  induction cs generalizing s with
  | nil => exact hOK
  | cons c rest ih =>
    have hnd2 : ((applyCommit s c).roomTypes.map RoomType.id).Nodup := by
      rw [roomTypes_applyCommit]; exact hnd
    exact ih (applyCommit s c) hnd2 (capacityOK_applyCommit s c hnd hOK)

theorem c1_witness :
    capacityOK (applyCommits emptyStore1
      [.direct 1 "Gia" "gia@example.com" (some d20240110) (some d20240112),
       .webhook ⟨"booking.com", "X123", 1, "Ravi", "ravi@example.com",
         some d20240112, some d20240114⟩]) :=
  c1_capacity_invariant_preserved emptyStore1 _ (by decide) (by
    intro rt hrt d
    simp only [emptyStore1, List.mem_singleton] at hrt
    subst hrt
    simp [reservationsOf, occupancy, emptyStore1])

/-- **C2**: for any reservations, quantity and dates with `start < end`, the
availability scan returns `(False, d)` exactly for the earliest day `d` of
`[start, end)` whose occupancy has reached the quantity, and `(True, None)`
exactly when no day of the range is at or over quantity. -/
theorem c2_first_blocked_characterization (rs : List Reservation)
    (q a b : Int) (_hab : a < b) :
    (∀ d : Int, is_available rs q a b = (false, some d) ↔
      firstBlockedDay rs q a b d) ∧
    (is_available rs q a b = (true, none) ↔
      ∀ d : Int, a ≤ d → d < b → (occupancy rs d : Int) < q) := by
  constructor
  · intro d
    constructor
    · intro hd
      obtain ⟨x, hx, hfb⟩ := is_available_fst_false rs q a b (by rw [hd])
      rw [hd] at hx
      simp only [Option.some_inj] at hx
      obtain rfl : d = x := hx
      exact hfb
    · exact is_available_of_first rs q a b d
  · constructor
    · intro hd
      exact is_available_fst_true rs q a b (by rw [hd])
    · exact is_available_of_none rs q a b

theorem c2_witness :
    (∀ d : Int, is_available [exRes1] 1 d20240109 d20240111 =
        (false, some d) ↔
      firstBlockedDay [exRes1] 1 d20240109 d20240111 d) ∧
    (is_available [exRes1] 1 d20240109 d20240111 = (true, none) ↔
      ∀ d : Int, d20240109 ≤ d → d < d20240111 →
        (occupancy [exRes1] d : Int) < 1) :=
  c2_first_blocked_characterization [exRes1] 1 d20240109 d20240111 (by decide)

/-- **C3**: the overlap predicate has half-open interval semantics — it
holds iff `not (checkOut <= otherStart or checkIn >= otherEnd)`; the
reservation `[2024-01-10, 2024-01-12)` does not overlap
`[2024-01-12, 2024-01-14)` (same-day turnover) and does overlap
`[2024-01-11, 2024-01-13)`. -/
theorem c3_overlap_half_open :
    (∀ (r : Reservation) (a b : Int),
      r.overlaps a b = true ↔ ¬(r.checkOut ≤ a ∨ r.checkIn ≥ b)) ∧
    exRes1.overlaps d20240112 d20240114 = false ∧
    exRes1.overlaps d20240111 d20240113 = true := by
  refine ⟨fun r a b => ?_, by decide, by decide⟩
  simp only [Reservation.overlaps, Bool.not_eq_true', Bool.or_eq_false_iff,
    decide_eq_false_iff_not, not_le]
  omega

/-- **C9 fails as stated**: with `quantity = 2` and two committed
reservations for the identical range `[2024-01-10, 2024-01-12)`, the third
booking `[2024-01-09, 2024-01-11)` overlaps both, is rejected — but with
blocked day 2024-01-10, not the first day 2024-01-09 of its requested
range. -/
theorem c9_counterexample :
    exRes1.overlaps d20240109 d20240111 = true ∧
    exRes2.overlaps d20240109 d20240111 = true ∧
    (book_room exStore 1 "Cato" "cato@example.com" (some d20240109)
      (some d20240111)).2 = .conflict (some d20240110) ∧
    d20240110 ≠ d20240109 := by
  exact ⟨by decide, by decide, by decide, by decide⟩

/-- **C9 (amended)**: with `quantity = 2` and exactly two committed
reservations, both spanning the identical range `[a, b)`, a third booking
requesting an overlapping valid range `[s3, e3)` is rejected with blocked
day `max s3 a` — the first day of the intersection with the occupied range;
this equals the first requested day exactly when `s3 ≥ a`. -/
theorem c9_amended (s : Store) (rt : RoomType) (r1 r2 : Reservation)
    (a b s3 e3 : Int) (n e : String)
    (hq : rt.quantity = 2)
    (hfind : findRoomType s rt.id = some rt)
    (hres : reservationsOf s rt.id = [r1, r2])
    (h1a : r1.checkIn = a) (h1b : r1.checkOut = b)
    (h2a : r2.checkIn = a) (h2b : r2.checkOut = b)
    (hab : a < b) (hs3 : s3 < e3) (hov1 : s3 < b) (hov2 : a < e3) :
    book_room s rt.id n e (some s3) (some e3) =
      (s, .conflict (some (max s3 a))) := by
  have hocc : ∀ d : Int, (occupancy [r1, r2] d : Int) =
      if a ≤ d ∧ d < b then 2 else 0 := by
    intro d
    by_cases hd : a ≤ d ∧ d < b
    · have o1 : r1.overlaps d (d + 1) = true :=
        (overlaps_day r1 d).mpr (by rw [h1a, h1b]; exact hd)
      have o2 : r2.overlaps d (d + 1) = true :=
        (overlaps_day r2 d).mpr (by rw [h2a, h2b]; exact hd)
      simp [occupancy, List.filter, o1, o2, hd]
    · have o1 : r1.overlaps d (d + 1) = false := by
        apply Bool.eq_false_iff.mpr
        intro hcon
        have := (overlaps_day r1 d).mp hcon
        rw [h1a, h1b] at this
        exact hd this
      have o2 : r2.overlaps d (d + 1) = false := by
        apply Bool.eq_false_iff.mpr
        intro hcon
        have := (overlaps_day r2 d).mp hcon
        rw [h2a, h2b] at this
        exact hd this
      simp [occupancy, List.filter, o1, o2, hd]
  have hfb : firstBlockedDay (reservationsOf s rt.id) rt.quantity s3 e3
      (max s3 a) := by
    rw [hres, hq]
    refine ⟨le_max_left s3 a, max_lt hs3 hov2, ?_, ?_⟩
    · rw [hocc]
      have h1 : a ≤ max s3 a := le_max_right s3 a
      have h2 : max s3 a < b := max_lt hov1 hab
      simp [h1, h2]
    · intro y hy1 hy2
      rw [hocc]
      have hnot : ¬(a ≤ y ∧ y < b) := by
        rcases max_choice s3 a with hm | hm <;> rw [hm] at hy2 <;> omega
      simp [hnot]
  have hav := is_available_of_first _ _ _ _ _ hfb
  simp [book_room, hfind, show ¬e3 ≤ s3 by omega, hav]

theorem c9_amended_witness :
    book_room exStore 1 "Cato" "cato@example.com" (some d20240109)
      (some d20240111) =
      (exStore, .conflict (some (max d20240109 d20240110))) :=
  c9_amended exStore ⟨1, 2⟩ exRes1 exRes2 d20240110 d20240112 d20240109
    d20240111 ("Cato") ("cato@example.com") rfl rfl rfl rfl rfl rfl rfl
    (by decide) (by decide) (by decide) (by decide)

/-- **C4**: if a reservation with the payload's `(source, externalId)` key
already exists, ingest returns `Duplicate` carrying the first matching
row's id and the store is unchanged — this branch runs before the room-type
and date checks, so it holds regardless of the payload's validity; and a
call returning `Accepted n` is followed, on the resulting store, by a
second call returning `Duplicate n` with the store unchanged and exactly
one row matching the key. -/
theorem c4_ingest_idempotent (s : Store) (p : WebhookPayload) :
    (∀ existing, s.reservations.find? (matchesKey p) = some existing →
      ota_webhook s p = (s, .duplicate existing.id)) ∧
    (∀ (s1 : Store) (n : Nat), ota_webhook s p = (s1, .accepted n) →
      ota_webhook s1 p = (s1, .duplicate n) ∧ keyCount s1 p = 1) := by
  constructor
  · intro existing h
    simp [ota_webhook, h]
  · intro s1 n h
    rcases ota_webhook_cases s p with ⟨_, hne⟩ |
      ⟨rt, a, b, hdup, hrt, hci, hco, hav, heq⟩
    · exact absurd (by rw [h]) (hne n)
    · rw [heq] at h
      injection h with h1 h2
      injection h2 with h2
      subst h1
      subst h2
      have hmatch : matchesKey p (webhookRow s rt p a b) = true := by
        simp [matchesKey, webhookRow]
      have hnil : s.reservations.filter (matchesKey p) = [] := by
        rw [List.filter_eq_nil_iff]
        intro r hr
        have := List.find?_eq_none.mp hdup r hr
        simp [this]
      have hfind : (insertRow s (webhookRow s rt p a b)).reservations.find?
          (matchesKey p) = some (webhookRow s rt p a b) := by
        show (s.reservations ++ [webhookRow s rt p a b]).find?
          (matchesKey p) = _
        rw [List.find?_append, hdup]
        simp [hmatch]
      constructor
      · simp only [ota_webhook, hfind]
        rfl
      · show ((s.reservations ++ [webhookRow s rt p a b]).filter
          (matchesKey p)).length = 1
        rw [List.filter_append, hnil]
        simp [hmatch]

theorem c4_witness :
    (ota_webhook exStore
      ⟨"booking.com", "X123", 1, "Ravi", "ravi@example.com",
        some d20240112, some d20240114⟩).1.reservations.length = 3 ∧
    ota_webhook (ota_webhook exStore
      ⟨"booking.com", "X123", 1, "Ravi", "ravi@example.com",
        some d20240112, some d20240114⟩).1
      ⟨"booking.com", "X123", 1, "Ravi", "ravi@example.com",
        some d20240112, some d20240114⟩ =
      ((ota_webhook exStore
        ⟨"booking.com", "X123", 1, "Ravi", "ravi@example.com",
          some d20240112, some d20240114⟩).1, .duplicate 3) ∧
    keyCount (ota_webhook exStore
      ⟨"booking.com", "X123", 1, "Ravi", "ravi@example.com",
        some d20240112, some d20240114⟩).1
      ⟨"booking.com", "X123", 1, "Ravi", "ravi@example.com",
        some d20240112, some d20240114⟩ = 1 := by
  have h := (c4_ingest_idempotent exStore
    ⟨"booking.com", "X123", 1, "Ravi", "ravi@example.com",
      some d20240112, some d20240114⟩).2
    (ota_webhook exStore
      ⟨"booking.com", "X123", 1, "Ravi", "ravi@example.com",
        some d20240112, some d20240114⟩).1 3 (by decide)
  exact ⟨by decide, h.1, h.2⟩

/-- **C5**: whenever a booking or ingestion attempt fails — its result is
not a successful commit — the store is returned unchanged; and a capacity
conflict result carries `some d` where `d` is the first blocked day of the
requested range. -/
theorem c5_failures_have_no_side_effects :
    (∀ (s : Store) (rtId : Nat) (n e : String) (ci co : Option Int)
       (s1 : Store) (r : BookResult), book_room s rtId n e ci co = (s1, r) →
      ((∀ k, r ≠ .confirmed k) → s1 = s) ∧
      (∀ blocked, r = .conflict blocked → ∃ rt check_in check_out d,
        findRoomType s rtId = some rt ∧ ci = some check_in ∧
        co = some check_out ∧ blocked = some d ∧
        firstBlockedDay (reservationsOf s rt.id) rt.quantity check_in
          check_out d)) ∧
    (∀ (s : Store) (p : WebhookPayload) (s1 : Store) (r : IngestResult),
      ota_webhook s p = (s1, r) →
      ((∀ k, r ≠ .accepted k) → s1 = s) ∧
      (∀ blocked, r = .rejected blocked → ∃ rt check_in check_out d,
        findRoomType s p.roomTypeId = some rt ∧
        p.checkInRaw = some check_in ∧ p.checkOutRaw = some check_out ∧
        blocked = some d ∧
        firstBlockedDay (reservationsOf s rt.id) rt.quantity check_in
          check_out d)) := by
  constructor
  · intro s rtId n e ci co s1 r h
    constructor
    · intro hfail
      rcases book_room_cases s rtId n e ci co with ⟨heq, _⟩ |
        ⟨rt, a, b, _, _, _, _, _, heq⟩
      · rw [h] at heq; exact heq
      · rw [heq] at h
        have h2 := congrArg Prod.snd h
        simp only [Prod.snd] at h2
        exact absurd h2.symm (hfail s.nextId)
    · intro blocked hr
      subst hr
      exact book_room_conflict s rtId n e ci co blocked (by rw [h])
  · intro s p s1 r h
    constructor
    · intro hfail
      rcases ota_webhook_cases s p with ⟨heq, _⟩ |
        ⟨rt, a, b, _, _, _, _, _, heq⟩
      · rw [h] at heq; exact heq
      · rw [heq] at h
        have h2 := congrArg Prod.snd h
        simp only [Prod.snd] at h2
        exact absurd h2.symm (hfail s.nextId)
    · intro blocked hr
      subst hr
      exact ota_webhook_rejected s p blocked (by rw [h])

theorem c5_witness :
    (book_room exStore 1 "Cato" "cato@example.com" (some d20240109)
      (some d20240111)).1 = exStore ∧
    (ota_webhook exStore
      ⟨"makemytrip", "MM1", 7, "Ravi", "ravi@example.com",
        some d20240110, some d20240112⟩).1 = exStore := by
  constructor
  · refine (c5_failures_have_no_side_effects.1 exStore 1 "Cato"
      "cato@example.com" (some d20240109) (some d20240111) _ _ rfl).1 ?_
    intro k hk
    exact BookResult.noConfusion hk
  · refine (c5_failures_have_no_side_effects.2 exStore
      ⟨"makemytrip", "MM1", 7, "Ravi", "ravi@example.com",
        some d20240110, some d20240112⟩ _ _ rfl).1 ?_
    intro k hk
    exact IngestResult.noConfusion hk

/-- **C10**: for `start >= end` the availability check itself returns
`Available` with no blocked day, whatever the reservations and the quantity;
on the booking path an inverted range is rejected by the caller's prior
validation, before `is_available` runs. -/
theorem c10_inverted_range_available :
    (∀ (rs : List Reservation) (q a b : Int), b ≤ a →
      is_available rs q a b = (true, none)) ∧
    (∀ (s : Store) (rtId : Nat) (n e : String) (a b : Int) (rt : RoomType),
      findRoomType s rtId = some rt → b ≤ a →
      book_room s rtId n e (some a) (some b) = (s, .invalidRange)) := by
  constructor
  · intro rs q a b hba
    rw [is_available, Int.toNat_of_nonpos (by omega)]
    rfl
  · intro s rtId n e a b rt hrt hba
    simp [book_room, hrt, hba]

theorem c10_witness :
    is_available [exRes1] (-3) d20240112 d20240110 = (true, none) ∧
    book_room exStore 1 "Gia" "gia@example.com" (some d20240112)
      (some d20240110) = (exStore, .invalidRange) :=
  ⟨c10_inverted_range_available.1 [exRes1] (-3) d20240112 d20240110
    (by decide),
   c10_inverted_range_available.2 exStore 1 "Gia" "gia@example.com"
     d20240112 d20240110 ⟨1, 2⟩ (by decide) (by decide)⟩

/-- **C7**: for every room type (with distinct room-type ids and a
non-negative quantity, as the data model requires) and every day `d`, the
reconciliation scan returns exactly one `Conflict` entry for the pair when
the number of that room type's reservations covering `d` strictly exceeds
its quantity — and that entry carries the full covering list and its count —
and no entry otherwise (in particular none for days covered by no
reservation, and none for days at or under quantity). -/
theorem c7_reconcile_exact_conflicts (s : Store) (rt : RoomType) (d : Int)
    (hmem : rt ∈ s.roomTypes)
    (hnd : (s.roomTypes.map RoomType.id).Nodup)
    (hq : 0 ≤ rt.quantity) :
    (admin_reconcile s).filter
        (fun c => c.roomTypeId == rt.id && c.date == d) =
      if rt.quantity <
          ((coveringOf (reservationsOf s rt.id) d).length : Int) then
        [⟨rt.id, d, (coveringOf (reservationsOf s rt.id) d).length,
          coveringOf (reservationsOf s rt.id) d⟩]
      else [] := by
  rw [admin_reconcile_eq_join]
  have main : ∀ (rts : List RoomType), rt ∈ rts →
      (rts.map RoomType.id).Nodup →
      ((rts.map
          (fun rt2 => rtConflicts rt2 (reservationsOf s rt2.id))).flatten).filter
        (fun c => c.roomTypeId == rt.id && c.date == d) =
      (rtConflicts rt (reservationsOf s rt.id)).filter
        (fun c => c.date == d) := by
    intro rts
    induction rts with
    | nil => intro h; cases h
    | cons rt2 rest ih =>
      intro hm hn
      simp only [List.map_cons, List.flatten_cons, List.filter_append,
        List.nodup_cons] at hn ⊢
      obtain ⟨hni, hnr⟩ := hn
      rcases List.mem_cons.mp hm with rfl | hm2
      · have htail : ((rest.map
            (fun rt3 => rtConflicts rt3 (reservationsOf s rt3.id))).flatten).filter
            (fun c => c.roomTypeId == rt.id && c.date == d) = [] := by
          rw [List.filter_eq_nil_iff]
          intro c hc
          obtain ⟨li, hli, hcli⟩ := List.mem_flatten.mp hc
          obtain ⟨rt3, hrt3, rfl⟩ := List.mem_map.mp hli
          have hid3 := rtConflicts_roomTypeId rt3 _ c hcli
          have hne : rt3.id ≠ rt.id := by
            intro hcontra
            exact hni (by rw [← hcontra]
                          exact List.mem_map_of_mem RoomType.id hrt3)
          simp [hid3, hne]
        rw [htail, List.append_nil]
        apply List.filter_congr
        intro c hc
        have hcid := rtConflicts_roomTypeId rt _ c hc
        simp [hcid]
      · have hhead : (rtConflicts rt2 (reservationsOf s rt2.id)).filter
            (fun c => c.roomTypeId == rt.id && c.date == d) = [] := by
          rw [List.filter_eq_nil_iff]
          intro c hc
          have hid2 := rtConflicts_roomTypeId rt2 _ c hc
          have hne : rt2.id ≠ rt.id := by
            intro hcontra
            exact hni (by rw [hcontra]
                          exact List.mem_map_of_mem RoomType.id hm2)
          simp [hid2, hne]
        rw [hhead, List.nil_append]
        exact ih hm2 hnr
  rw [main s.roomTypes hmem hnd, rtConflicts_filter rt _ d hq]

theorem c7_witness :
    ((admin_reconcile marStore).filter
        (fun c => c.roomTypeId == (⟨1, 2⟩ : RoomType).id &&
          c.date == d20240301) =
      if (⟨1, 2⟩ : RoomType).quantity <
          ((coveringOf (reservationsOf marStore (⟨1, 2⟩ : RoomType).id)
            d20240301).length : Int) then
        [⟨(⟨1, 2⟩ : RoomType).id, d20240301,
          (coveringOf (reservationsOf marStore (⟨1, 2⟩ : RoomType).id)
            d20240301).length,
          coveringOf (reservationsOf marStore (⟨1, 2⟩ : RoomType).id)
            d20240301⟩]
      else []) ∧
    coveringOf (reservationsOf marStore 1) d20240301 =
      [marRes1, marRes2, marRes3] ∧
    (⟨1, 2⟩ : RoomType).quantity < 3 :=
  ⟨c7_reconcile_exact_conflicts marStore ⟨1, 2⟩ d20240301 (by decide)
    (by decide) (by decide), by decide, by decide⟩

/-- **C8**: the 30-day snapshot starting `today` reports, in day order,
`available = max(0, quantity - occupancy)` for each day of the window; with
a non-negative quantity this is always a non-negative integer, and with no
reservations it equals the quantity on every day of the window. -/
theorem c8_snapshot_availability (rs : List Reservation) (q today : Int)
    (hq : 0 ≤ q) :
    (pushSnapshot rs q today).map Prod.fst =
      (List.range 30).map (fun i => today + (i : Int)) ∧
    ∀ e ∈ pushSnapshot rs q today,
      e.2 = max 0 (q - (occupancy rs e.1 : Int)) ∧ 0 ≤ e.2 ∧
        (rs = [] → e.2 = q) := by
  constructor
  · simp [pushSnapshot, snapshotDay]
  · intro e he
    simp only [pushSnapshot, List.mem_map, List.mem_range] at he
    obtain ⟨i, _, rfl⟩ := he
    refine ⟨rfl, le_max_left 0 _, ?_⟩
    intro hrs
    subst hrs
    show max 0 (q - (occupancy [] (today + (i : Int)) : Int)) = q
    have hz : (occupancy [] (today + (i : Int)) : Int) = 0 := rfl
    rw [hz, sub_zero]
    exact max_eq_right hq

theorem c8_witness :
    ((pushSnapshot [] 5 0).map Prod.fst =
      (List.range 30).map (fun i => (0 : Int) + (i : Int))) ∧
    ∀ e ∈ pushSnapshot [] 5 0,
      e.2 = max 0 (5 - (occupancy [] e.1 : Int)) ∧ 0 ≤ e.2 ∧
        (([] : List Reservation) = [] → e.2 = 5) :=
  c8_snapshot_availability [] 5 0 (by decide)

end Heritage
